import Mathlib

set_option maxHeartbeats 1000000

/-!
Shallow embedding of the cpp-dataflow core:
`src/include/utils/synchronized_multi_queue.h` (SynchronizationMultiQueue and its View),
`src/include/dataflow/Producer.h`, `src/include/dataflow/Consumer.h`,
`src/include/dataflow/ComponentFactory.h`.

The queue state is embedded as explicit data: `impl` is `m_impl` (front at the
head of the list), `refCounter` is `m_referenceCounter`, and `views` is the
registered-view set `m_views` together with each registered view object's
`m_idx` field, keyed by an abstract view identity (the C++ `View*`).
Mutex/condition-variable synchronization is not modelled: each C++ critical
section becomes one atomic state transition, and a blocking wait becomes the
precondition that its wake condition already holds.
-/

namespace MQ

/-- State of one `SynchronizationMultiQueue<T>`: the element buffer `m_impl`,
the owed-count deque `m_referenceCounter` (parallel to `impl`), and the
registered views `m_views`, each paired with its current `m_idx`. -/
structure MQState (T : Type) where
  impl : List T
  refCounter : List Nat
  views : List (Nat × Nat)
deriving DecidableEq

/-- A freshly constructed queue (`SynchronizationMultiQueue::make()`). -/
def emptyMQ {T : Type} : MQState T := ⟨[], [], []⟩

/-- The `m_idx` of the registered view identified by `vid`, if registered. -/
def lookupView {T : Type} (s : MQState T) (vid : Nat) : Option Nat :=
  (s.views.find? (fun p => p.1 == vid)).map (fun p => p.2)

/-- The range covered by a view: the elements from its `m_idx` (its `begin`)
to the queue's end (its `end`). -/
def viewRemaining {T : Type} (s : MQState T) (vid : Nat) : List T :=
  s.impl.drop ((lookupView s vid).getD 0)

/-- `View::size()`: `std::distance(begin(queue), end(queue))`, i.e. the queue
length minus the view's `m_idx`. -/
def viewSize {T : Type} (s : MQState T) (vid : Nat) : Nat :=
  s.impl.length - (lookupView s vid).getD 0

/-- `SynchronizationMultiQueue::push`: with no registered views the value is
discarded (the zero `stalenessThreshold` branch returns immediately);
otherwise the value is appended with owed-count `m_views.size()`. -/
def push {T : Type} (s : MQState T) (x : T) : MQState T :=
  if s.views.isEmpty then s
  else { s with impl := s.impl ++ [x],
                refCounter := s.refCounter ++ [s.views.length] }

/-- `registerView`, for a view object whose `m_idx` currently equals `i`:
inserts the view into `m_views` (counts are untouched, exactly as in the
source). -/
def registerViewAt {T : Type} (s : MQState T) (vid i : Nat) : MQState T :=
  { s with views := s.views ++ [(vid, i)] }

/-- `SynchronizationMultiQueue::view()` / `View::View(Queue&)`: the new view's
`m_idx` is initialized to `queue.size()` and the view is registered. -/
def view {T : Type} (s : MQState T) (vid : Nat) : MQState T :=
  registerViewAt s vid s.impl.length

/-- `View::View(const View&)` for a source view registered on a live queue:
the copy takes the source's `m_idx` and is registered; `registerView` does not
touch any owed-count. -/
def copyView {T : Type} (s : MQState T) (src newVid : Nat) : MQState T :=
  match lookupView s src with
  | some i => registerViewAt s newVid i
  | none => s

/-- Overwrite the `m_idx` of the registered view `vid`. -/
def setViewIdx (views : List (Nat × Nat)) (vid i : Nat) : List (Nat × Nat) :=
  views.map (fun p => if p.1 == vid then (p.1, i) else p)

/-- `decreaseReferenceCount(idx)`: decrement `m_referenceCounter.at(idx)`;
if it reached zero, pop the front of `m_impl` and `m_referenceCounter` and
decrement the `m_idx` of every registered view. The C++ `--view->m_idx` acts
on `size_t`; here it is `Nat` subtraction — under the well-formedness
invariant proved below no registered view has `m_idx = 0` at that point, so
no underflow occurs on in-invariant states. -/
def decreaseReferenceCount {T : Type} (s : MQState T) (idx : Nat) : MQState T :=
  let rc := s.refCounter.set idx (s.refCounter.getD idx 0 - 1)
  if rc.getD idx 0 == 0 then
    { impl := s.impl.tail, refCounter := rc.tail,
      views := s.views.map (fun p => (p.1, p.2 - 1)) }
  else
    { s with refCounter := rc }

/-- One step of consuming element `i` through view `vid`: the view's `m_idx`
is bumped to `i + 1` (the post-increment in `m_idx++`), then
`decreaseReferenceCount(i)` runs with the view still registered. -/
def popStep {T : Type} (s : MQState T) (vid i : Nat) : MQState T :=
  decreaseReferenceCount { s with views := setViewIdx s.views vid (i + 1) } i

/-- `View::pop()` for a registered view: the wait is modelled by returning
`none` while the view's range `[m_idx, size)` is empty; otherwise the element
at `m_idx` is read and `decreaseReferenceCount(m_idx++)` is performed. -/
def pop {T : Type} (s : MQState T) (vid : Nat) : Option (T × MQState T) :=
  match lookupView s vid with
  | none => none
  | some i =>
    match s.impl[i]? with
    | none => none
    | some x => some (x, popStep s vid i)

/-- The `while (view.m_idx != m_impl.size())` drain loop of `unregisterView`,
with fuel; each iteration performs `decreaseReferenceCount(view.m_idx++)`. -/
def drainView {T : Type} : Nat → MQState T → Nat → MQState T
  | 0, s, _ => s
  | fuel + 1, s, vid =>
    match lookupView s vid with
    | none => s
    | some i => if i < s.impl.length then drainView fuel (popStep s vid i) vid else s

/-- Erase the view from `m_views`. -/
def removeViewKey {T : Type} (s : MQState T) (vid : Nat) : MQState T :=
  { s with views := s.views.filter (fun p => !(p.1 == vid)) }

/-- `unregisterView`: if the view is not in `m_views`, do nothing; otherwise
release the owed-counts of its whole remaining range and erase it. The fuel
`s.impl.length` bounds the drain loop, which strictly decreases
`size - m_idx`. -/
def unregisterView {T : Type} (s : MQState T) (vid : Nat) : MQState T :=
  if s.views.any (fun p => p.1 == vid) then
    removeViewKey (drainView s.impl.length s vid) vid
  else s

/-- `View::clear()` on a live queue: `unregisterView` (which drains the view's
`m_idx` up to the resulting queue end) followed by `registerView` with that
`m_idx`. -/
def clearView {T : Type} (s : MQState T) (vid : Nat) : MQState T :=
  let s2 := unregisterView s vid
  registerViewAt s2 vid s2.impl.length

/-- Number of registered views whose `m_idx` is at or before slot `j` —
the views whose covered range contains slot `j`. -/
def countCovering {T : Type} (s : MQState T) (j : Nat) : Nat :=
  (s.views.filter (fun p => decide (p.2 ≤ j))).length

/-- Well-formedness of a queue state. `count_eq` states that each slot's
owed-count equals the number of registered views covering it, and `count_pos`
that every buffered slot is still owed at least one consumption (a slot whose
count reaches zero is evicted on the spot by `decreaseReferenceCount`). -/
structure Wf {T : Type} (s : MQState T) : Prop where
  len_eq : s.refCounter.length = s.impl.length
  keys_nodup : (s.views.map Prod.fst).Nodup
  idx_le : ∀ p ∈ s.views, p.2 ≤ s.impl.length
  count_eq : ∀ j, j < s.refCounter.length → s.refCounter.getD j 0 = countCovering s j
  count_pos : ∀ j, j < s.refCounter.length → 0 < s.refCounter.getD j 0

/-! ### List toolkit -/

lemma two_le_length_of_mem {α : Type} {a b : α} {l : List α}
    (ha : a ∈ l) (hb : b ∈ l) (hne : a ≠ b) : 2 ≤ l.length := by
  induction l with
  | nil => cases ha
  | cons c t ih =>
    rcases List.mem_cons.mp ha with rfl | ha2
    · rcases List.mem_cons.mp hb with rfl | hb2
      · exact absurd rfl hne
      · have h1 : 0 < t.length := List.length_pos.mpr (List.ne_nil_of_mem hb2)
        simp only [List.length_cons]
        omega
    · rcases List.mem_cons.mp hb with rfl | hb2
      · have h1 : 0 < t.length := List.length_pos.mpr (List.ne_nil_of_mem ha2)
        simp only [List.length_cons]
        omega
      · have h2 := ih ha2 hb2
        simp only [List.length_cons]
        omega

lemma getD_set_self (l : List Nat) (i v : Nat) (h : i < l.length) :
    (l.set i v).getD i 0 = v := by
  rw [List.getD_eq_getElem?_getD, List.getElem?_set_self h]
  rfl

lemma tail_set_zero {α : Type} (l : List α) (v : α) : (l.set 0 v).tail = l.tail := by
  cases l <;> rfl

lemma find?_key_map_snd (f : Nat × Nat → Nat) (vid : Nat) (l : List (Nat × Nat)) :
    (l.map (fun p => (p.1, f p))).find? (fun p => p.1 == vid)
      = (l.find? (fun p => p.1 == vid)).map (fun p => (p.1, f p)) := by
  induction l with
  | nil => rfl
  | cons c t ih =>
    by_cases h : (c.1 == vid) = true
    · simp [List.find?_cons, h]
    · simp [List.find?_cons, h, ih]

lemma find?_setViewIdx (l : List (Nat × Nat)) (vid j : Nat) :
    (setViewIdx l vid j).find? (fun p => p.1 == vid)
      = (l.find? (fun p => p.1 == vid)).map (fun p => (p.1, j)) := by
  induction l with
  | nil => rfl
  | cons c t ih =>
    show (((if (c.1 == vid) = true then (c.1, j) else c) :: setViewIdx t vid j).find?
            (fun p => p.1 == vid))
        = ((c :: t).find? (fun p => p.1 == vid)).map (fun p => (p.1, j))
    by_cases h : (c.1 == vid) = true
    · rw [if_pos h]
      simp only [List.find?_cons, h]
      rfl
    · have hf : (c.1 == vid) = false := by simpa using h
      rw [if_neg h]
      simp only [List.find?_cons, hf]
      exact ih

/-! ### Characterization of `pop` on a well-formed state -/

/-- Everything C1 asserts about one `pop` through a registered view whose
range is non-empty: the returned element is the one at the view's offset,
that slot's owed-count is decremented, the view's offset is advanced by one,
and the slot is evicted (necessarily from the front, shifting every view's
offset down by one to keep indices consistent) exactly when the decremented
count reached zero; otherwise the buffer is untouched. -/
def popSpecProp {T : Type} (s : MQState T) (vid i : Nat) : Prop :=
  ∃ x s2,
    s.impl[i]? = some x ∧
    pop s vid = some (x, s2) ∧
    1 ≤ s.refCounter.getD i 0 ∧
    (1 < s.refCounter.getD i 0 →
      s2.impl = s.impl ∧
      s2.refCounter = s.refCounter.set i (s.refCounter.getD i 0 - 1) ∧
      s2.views = setViewIdx s.views vid (i + 1) ∧
      lookupView s2 vid = some (i + 1)) ∧
    (s.refCounter.getD i 0 = 1 →
      i = 0 ∧
      s2.impl = s.impl.tail ∧
      s2.refCounter = s.refCounter.tail ∧
      s2.views = (setViewIdx s.views vid (i + 1)).map (fun p => (p.1, p.2 - 1)) ∧
      lookupView s2 vid = some 0 ∧
      (∀ p ∈ s.views, p.1 ≠ vid → 1 ≤ p.2 ∧ (p.1, p.2 - 1) ∈ s2.views))

lemma pop_cases {T : Type} (s : MQState T) (hW : Wf s) (vid i : Nat)
    (hfind : lookupView s vid = some i) (hi : i < s.impl.length) :
    popSpecProp s vid i := by
  obtain ⟨pr, hp, hp2⟩ := Option.map_eq_some'.mp hfind
  have hpkeyb : (pr.1 == vid) = true := by simpa using List.find?_some hp
  have hpkey : pr.1 = vid := beq_iff_eq.mp hpkeyb
  have hpm : (vid, i) ∈ s.views := by
    have hmem := List.mem_of_find?_eq_some hp
    rwa [show pr = (vid, i) from by rw [← hpkey, ← hp2]] at hmem
  have hiR : i < s.refCounter.length := by rw [hW.len_eq]; exact hi
  have hc1 : 1 ≤ s.refCounter.getD i 0 := hW.count_pos i hiR
  have hx : s.impl[i]? = some s.impl[i] := List.getElem?_eq_getElem hi
  have hpop : pop s vid = some (s.impl[i], popStep s vid i) := by
    unfold pop
    rw [hfind]
    dsimp only
    rw [hx]
  have hgd : (s.refCounter.set i (s.refCounter.getD i 0 - 1)).getD i 0
      = s.refCounter.getD i 0 - 1 := getD_set_self _ i _ hiR
  refine ⟨s.impl[i], popStep s vid i, hx, hpop, hc1, ?_, ?_⟩
  · -- no eviction: the decremented count is still positive
    intro hlt
    have hne0 : s.refCounter.getD i 0 - 1 ≠ 0 := by omega
    have hcond : ((s.refCounter.set i (s.refCounter.getD i 0 - 1)).getD i 0 == 0) = false := by
      rw [hgd]
      simpa using hne0
    have hstep : popStep s vid i
        = { impl := s.impl,
            refCounter := s.refCounter.set i (s.refCounter.getD i 0 - 1),
            views := setViewIdx s.views vid (i + 1) } := by
      unfold popStep decreaseReferenceCount
      simp only [hcond]
      rfl
    refine ⟨by rw [hstep], by rw [hstep], by rw [hstep], ?_⟩
    rw [hstep]
    show ((setViewIdx s.views vid (i + 1)).find? (fun p => p.1 == vid)).map (fun p => p.2)
      = some (i + 1)
    rw [find?_setViewIdx, hp]
    rfl
  · -- eviction: the count reached zero
    intro hone
    have hcc : countCovering s i = 1 := by
      rw [← hW.count_eq i hiR, hone]
    have hvfi : (vid, i) ∈ s.views.filter (fun p => decide (p.2 ≤ i)) :=
      List.mem_filter.mpr ⟨hpm, decide_eq_true (le_refl i)⟩
    have hi0 : i = 0 := by
      by_contra hne
      have hipos : 0 < i := Nat.pos_of_ne_zero hne
      have hi1R : i - 1 < s.refCounter.length := lt_of_le_of_lt (Nat.sub_le i 1) hiR
      have hpos := hW.count_pos (i - 1) hi1R
      rw [hW.count_eq (i - 1) hi1R] at hpos
      obtain ⟨w, hw⟩ := List.exists_mem_of_length_pos hpos
      have hwmem := List.mem_filter.mp hw
      have hwle : w.2 ≤ i - 1 := of_decide_eq_true hwmem.2
      have hwfi : w ∈ s.views.filter (fun p => decide (p.2 ≤ i)) :=
        List.mem_filter.mpr ⟨hwmem.1, decide_eq_true (le_trans hwle (Nat.sub_le i 1))⟩
      have hne2 : w ≠ (vid, i) := by
        intro he
        rw [he] at hwle
        simp only at hwle
        omega
      have h2 := two_le_length_of_mem hwfi hvfi hne2
      rw [countCovering] at hcc
      omega
    subst hi0
    have hcond : ((s.refCounter.set 0 (s.refCounter.getD 0 0 - 1)).getD 0 0 == 0) = true := by
      rw [hgd, hone]
      decide
    have hstep : popStep s vid 0
        = { impl := s.impl.tail,
            refCounter := (s.refCounter.set 0 (s.refCounter.getD 0 0 - 1)).tail,
            views := (setViewIdx s.views vid 1).map (fun p => (p.1, p.2 - 1)) } := by
      unfold popStep decreaseReferenceCount
      simp only [hcond]
      rfl
    have hrct : (s.refCounter.set 0 (s.refCounter.getD 0 0 - 1)).tail = s.refCounter.tail :=
      tail_set_zero _ _
    refine ⟨rfl, by rw [hstep], by rw [hstep, hrct], by rw [hstep], ?_, ?_⟩
    · rw [hstep]
      show (((setViewIdx s.views vid 1).map (fun p => (p.1, p.2 - 1))).find?
              (fun p => p.1 == vid)).map (fun p => p.2)
        = some 0
      rw [find?_key_map_snd (fun p => p.2 - 1) vid, find?_setViewIdx, hp]
      rfl
    · intro q hqmem hqne
      have hq1 : 1 ≤ q.2 := by
        by_contra h0
        have hq2 : q.2 = 0 := by omega
        have hqfi : q ∈ s.views.filter (fun r => decide (r.2 ≤ 0)) :=
          List.mem_filter.mpr ⟨hqmem, decide_eq_true (by omega)⟩
        have hvfi0 : (vid, 0) ∈ s.views.filter (fun r => decide (r.2 ≤ 0)) :=
          List.mem_filter.mpr ⟨hpm, decide_eq_true (le_refl 0)⟩
        have hneq : q ≠ (vid, 0) := by
          intro he
          exact hqne (by rw [he])
        have h2 := two_le_length_of_mem hqfi hvfi0 hneq
        rw [countCovering] at hcc
        omega
      refine ⟨hq1, ?_⟩
      have hqset : q ∈ setViewIdx s.views vid 1 := by
        refine List.mem_map.mpr ⟨q, hqmem, ?_⟩
        rw [if_neg]
        simp only [beq_iff_eq]
        exact hqne
      rw [hstep]
      exact List.mem_map.mpr ⟨q, hqset, rfl⟩

/-! ### Derived facts about the operations -/

lemma lookupView_mem {T : Type} (s : MQState T) (vid i : Nat)
    (hfind : lookupView s vid = some i) : (vid, i) ∈ s.views := by
  obtain ⟨pr, hp, hp2⟩ := Option.map_eq_some'.mp hfind
  have hpkey : pr.1 = vid := beq_iff_eq.mp (by simpa using List.find?_some hp)
  have hmem := List.mem_of_find?_eq_some hp
  rwa [show pr = (vid, i) from by rw [← hpkey, ← hp2]] at hmem

lemma views_push {T : Type} (s : MQState T) (x : T) : (push s x).views = s.views := by
  rw [push]
  split <;> rfl

lemma lookupView_push {T : Type} (s : MQState T) (x : T) (vid : Nat) :
    lookupView (push s x) vid = lookupView s vid := by
  rw [push]
  split <;> rfl

lemma impl_push_nonempty {T : Type} (s : MQState T) (x : T) (h : s.views ≠ []) :
    (push s x).impl = s.impl ++ [x] := by
  rw [push, if_neg (by simpa using h)]

/-- The range covered by a registered view grows by the pushed element
(the push appends at the queue's end, which every view's range reaches). -/
lemma viewRemaining_push {T : Type} (s : MQState T) (x : T) (vid i : Nat)
    (hfind : lookupView s vid = some i) (hi : i ≤ s.impl.length) (h : s.views ≠ []) :
    viewRemaining (push s x) vid = viewRemaining s vid ++ [x] := by
  rw [viewRemaining, viewRemaining, lookupView_push, hfind]
  show (push s x).impl.drop i = s.impl.drop i ++ [x]
  rw [impl_push_nonempty s x h]
  exact List.drop_append_of_le_length hi

/-- A freshly created view starts at the current queue length and covers
nothing. -/
lemma viewRemaining_view_fresh {T : Type} (s : MQState T) (w : Nat)
    (hw : ∀ p ∈ s.views, p.1 ≠ w) :
    lookupView (view s w) w = some s.impl.length ∧ viewRemaining (view s w) w = [] := by
  have hnone : s.views.find? (fun p => p.1 == w) = none :=
    List.find?_eq_none.mpr (fun p hp => by simpa using hw p hp)
  have hl : lookupView (view s w) w = some s.impl.length := by
    show ((s.views ++ [(w, s.impl.length)]).find? (fun p => p.1 == w)).map (fun p => p.2)
        = some s.impl.length
    rw [List.find?_append, hnone]
    simp [List.find?_cons]
  refine ⟨hl, ?_⟩
  rw [viewRemaining, hl]
  show s.impl.drop s.impl.length = []
  exact List.drop_length s.impl

/-- Views later in the queue cover a suffix of what earlier views cover:
all views observe the buffer in the same FIFO order. -/
lemma viewRemaining_suffix {T : Type} (s : MQState T) (v1 i1 v2 i2 : Nat)
    (h1 : lookupView s v1 = some i1) (h2 : lookupView s v2 = some i2) (hle : i1 ≤ i2) :
    (viewRemaining s v2).IsSuffix (viewRemaining s v1) := by
  rw [viewRemaining, viewRemaining, h1, h2]
  show (s.impl.drop i2).IsSuffix (s.impl.drop i1)
  have hd : s.impl.drop i2 = (s.impl.drop i1).drop (i2 - i1) := by
    rw [List.drop_drop]
    congr 1
    omega
  rw [hd]
  exact List.drop_suffix _ _

/-- The observable effect of `pop` on the popping view: it yields the head of
the view's covered range, and afterwards the view covers exactly the tail. -/
lemma pop_remaining {T : Type} (s : MQState T) (hW : Wf s) (vid i : Nat)
    (hfind : lookupView s vid = some i) (hi : i < s.impl.length) :
    ∃ x s2, pop s vid = some (x, s2) ∧
      (viewRemaining s vid).head? = some x ∧
      viewRemaining s2 vid = (viewRemaining s vid).tail := by
  obtain ⟨x, s2, hx, hpop, hc1, hA, hB⟩ := pop_cases s hW vid i hfind hi
  refine ⟨x, s2, hpop, ?_, ?_⟩
  · rw [viewRemaining, hfind]
    show (s.impl.drop i).head? = some x
    rw [List.head?_drop]
    exact hx
  · rcases Nat.lt_or_ge 1 (s.refCounter.getD i 0) with hgt | hle
    · obtain ⟨himpl, _, _, hlook⟩ := hA hgt
      rw [viewRemaining, viewRemaining, hlook, hfind, himpl]
      show s.impl.drop (i + 1) = (s.impl.drop i).tail
      rw [List.tail_drop]
    · have hone : s.refCounter.getD i 0 = 1 := by omega
      obtain ⟨hi0, himpl, _, _, hlook, _⟩ := hB hone
      subst hi0
      rw [viewRemaining, viewRemaining, hlook, hfind, himpl]
      rfl

lemma viewSize_pos_iff {T : Type} (s : MQState T) (vid i : Nat)
    (hfind : lookupView s vid = some i) :
    (0 < viewSize s vid ↔ i < s.impl.length) := by
  rw [viewSize, hfind]
  show 0 < s.impl.length - i ↔ i < s.impl.length
  omega

/-! ### Claim theorems over the queue -/

/-- **C1.** For a registered View on a live queue whose covered range is
non-empty (`i < length`), `pop()` returns the element at the View's offset
`i`, decrements that slot's owed-count by one, and advances the View's offset
by one; when the count reached zero the slot — necessarily the front slot
(`i = 0` is proved, not assumed) — is evicted and every other live View's
offset is decremented by one to keep indices consistent (the popping View's
just-advanced offset is shifted by the same reindexing, landing on the new
front slot). When the count stays positive the buffer is untouched: slots are
removed only from the front and only when their owed-count reaches zero. -/
theorem C1_pop_contract {T : Type} (s : MQState T) (hW : Wf s) (vid i : Nat)
    (hfind : lookupView s vid = some i) (hi : i < s.impl.length) :
    popSpecProp s vid i :=
  pop_cases s hW vid i hfind hi

/-- A reachable two-element, two-view queue state: view 0 was registered,
`10` pushed, view 1 registered, `20` pushed. -/
def s1ex : MQState Nat := ⟨[10, 20], [1, 2], [(0, 0), (1, 1)]⟩

lemma s1ex_wf : Wf s1ex := ⟨by decide, by decide, by decide, by decide, by decide⟩

/-- Witness for C1 at the concrete state `s1ex`, popping through view 0
(owed-count 1, so the front slot is evicted). -/
theorem C1_pop_contract_witness :
    Wf s1ex ∧ lookupView s1ex 0 = some 0 ∧ 0 < s1ex.impl.length ∧ popSpecProp s1ex 0 0 :=
  ⟨s1ex_wf, by decide, by decide, C1_pop_contract s1ex s1ex_wf 0 0 (by decide) (by decide)⟩

/-- **C4.** Pushing to a queue with zero registered Views discards the value
immediately: nothing is buffered, the entire queue state is unchanged, and no
error is raised (`push` is a total function; the discard is the early-return
branch of the zero `stalenessThreshold` policy). -/
theorem C4_push_no_views_discards {T : Type} (s : MQState T) (x : T)
    (h : s.views = []) : push s x = s := by
  have hb : s.views.isEmpty = true := List.isEmpty_iff.mpr h
  rw [push, if_pos hb]

/-- Witness for C4: pushing `5` to a fresh viewless queue leaves it unchanged. -/
theorem C4_push_no_views_discards_witness :
    (emptyMQ : MQState Nat).views = [] ∧ push (emptyMQ : MQState Nat) 5 = emptyMQ :=
  ⟨rfl, C4_push_no_views_discards emptyMQ 5 rfl⟩

/-- **C6.** A View created on a queue with buffered elements starts at offset
`queue length` — never earlier — and covers none of them; a push extends the
covered range of every View registered before it by exactly that element,
while a View registered after the push starts past it and does not cover it;
and any two registered Views cover ranges one of which is a suffix of the
other, so all Views observe elements in the same FIFO order. -/
theorem C6_registration_visibility {T : Type} (s : MQState T) (hW : Wf s)
    (w : Nat) (hw : ∀ p ∈ s.views, p.1 ≠ w) (vid i : Nat) (x : T)
    (hfind : lookupView s vid = some i) (v2 i2 : Nat)
    (h2 : lookupView s v2 = some i2) (hle : i ≤ i2) :
    lookupView (view s w) w = some s.impl.length ∧
    viewRemaining (view s w) w = [] ∧
    viewRemaining (push s x) vid = viewRemaining s vid ++ [x] ∧
    viewRemaining (view (push s x) w) w = [] ∧
    (viewRemaining s v2).IsSuffix (viewRemaining s vid) := by
  have hpm := lookupView_mem s vid i hfind
  have hfresh := viewRemaining_view_fresh s w hw
  refine ⟨hfresh.1, hfresh.2, ?_, ?_, ?_⟩
  · exact viewRemaining_push s x vid i hfind (hW.idx_le _ hpm) (List.ne_nil_of_mem hpm)
  · have hw2 : ∀ p ∈ (push s x).views, p.1 ≠ w := by
      rw [views_push]
      exact hw
    exact (viewRemaining_view_fresh (push s x) w hw2).2
  · exact viewRemaining_suffix s vid i v2 i2 hfind h2 hle

/-- Witness for C6 at `s1ex`: fresh view id 5, existing views 0 (offset 0)
and 1 (offset 1), pushed element 99. -/
theorem C6_registration_visibility_witness :
    Wf s1ex ∧ (∀ p ∈ s1ex.views, p.1 ≠ 5) ∧ lookupView s1ex 0 = some 0 ∧
    lookupView s1ex 1 = some 1 ∧
    (lookupView (view s1ex 5) 5 = some s1ex.impl.length ∧
     viewRemaining (view s1ex 5) 5 = [] ∧
     viewRemaining (push s1ex 99) 0 = viewRemaining s1ex 0 ++ [99] ∧
     viewRemaining (view (push s1ex 99) 5) 5 = [] ∧
     (viewRemaining s1ex 1).IsSuffix (viewRemaining s1ex 0)) :=
  ⟨s1ex_wf, by decide, by decide, by decide,
   C6_registration_visibility s1ex s1ex_wf 5 (by decide) 0 0 99 (by decide) 1 1 (by decide)
     (by decide)⟩

/-! ### C2: the copy constructor versus per-element owed-counts -/

/-- Queue with one registered view (id 0). -/
def c2s1 : MQState Nat := view (emptyMQ : MQState Nat) 0

/-- `10` pushed: slot owed-count 1 (one registered view). -/
def c2s2 : MQState Nat := push c2s1 10

/-- View 1 copy-constructed from view 0: `View::View(const View&)` takes the
source's `m_idx` (0) and calls `registerView`, which inserts the copy into
`m_views` without touching any owed-count. -/
def c2s3 : MQState Nat := copyView c2s2 0 1

/-- **C2 is violated by the code.** After copying view 0 (whose covered range
is `[10]`) to view 1, the copy covers `[10]` but slot 0's owed-count is still
1 while two registered views cover it — `registerView`'s assumption "since
the view is empty, no reference counting is necessary" is false on the copy
path. One `pop` through the original drops the count to zero and evicts the
slot while the copy still covers it: afterwards the buffer is empty and the
copy's covered range is empty although it never popped, so the copy never
observes `10`. (In C++ the eviction also decrements the copy's `size_t`
`m_idx` from 0, wrapping to `SIZE_MAX`; the skip happens either way.) -/
theorem C2_copy_refcount_bug :
    viewRemaining c2s3 1 = [10] ∧
    countCovering c2s3 0 = 2 ∧
    c2s3.refCounter.getD 0 0 = 1 ∧
    (pop c2s3 0).map (fun r => (r.1, r.2.impl, viewRemaining r.2 1))
      = some (10, [], []) := by
  refine ⟨?_, ?_, ?_, ?_⟩ <;> decide

/-! ### Weak references and the dangling-view error

A `View` holds `std::weak_ptr<Queue> m_queue`; every operation starts with
`auto queue = m_queue.lock(); if (!queue) throw std::runtime_error{...}`.
The world maps live queue ids to their states; destroying the owning
`shared_ptr` removes the id, after which `lock` yields `none`. A
default-constructed `View` has an empty `weak_ptr`, embedded as handle
`none`, whose `lock` also yields `none`. Throwing is embedded as
`Except.error`. -/

/-- The exact message of the C++ `std::runtime_error`. -/
def danglingMsg : String := "Attempting to use a dangling synchronization queue view"

/-- The live queues, by identity of the owning `shared_ptr`. -/
structure World (T : Type) where
  queues : List (Nat × MQState T)
deriving DecidableEq

/-- `m_queue.lock()`: `some` state iff the handle points to a live queue. -/
def World.lock {T : Type} (w : World T) (h : Option Nat) : Option (MQState T) :=
  h.bind (fun qid => ((w.queues.find? (fun q => q.1 == qid)).map (fun q => q.2)))

/-- Destruction of a queue's owning `shared_ptr`. -/
def World.destroy {T : Type} (w : World T) (qid : Nat) : World T :=
  ⟨w.queues.filter (fun q => !(q.1 == qid))⟩

/-- `View::pop()` at the `View` level: lock check, then the queue-level pop
(`none` inside `ok` meaning the wait has not yet been satisfied). -/
def vpop {T : Type} (w : World T) (h : Option Nat) (vid : Nat) :
    Except String (Option (T × MQState T)) :=
  match w.lock h with
  | none => Except.error danglingMsg
  | some s => Except.ok (pop s vid)

/-- `View::waitFor(duration)`: lock check, then whether the view's range is
non-empty (the wake condition `begin(*queue) != end(*queue)`; the timeout is
abstracted to evaluating the condition). -/
def vwaitFor {T : Type} (w : World T) (h : Option Nat) (vid : Nat) : Except String Bool :=
  match w.lock h with
  | none => Except.error danglingMsg
  | some s => Except.ok (decide (0 < viewSize s vid))

/-- `View::size()`: lock check, then `distance(begin, end)`. -/
def vsize {T : Type} (w : World T) (h : Option Nat) (vid : Nat) : Except String Nat :=
  match w.lock h with
  | none => Except.error danglingMsg
  | some s => Except.ok (viewSize s vid)

/-- `View::clear()`: lock check, then `unregisterView` + `registerView`. -/
def vclear {T : Type} (w : World T) (h : Option Nat) (vid : Nat) :
    Except String (MQState T) :=
  match w.lock h with
  | none => Except.error danglingMsg
  | some s => Except.ok (clearView s vid)

/-- `View::begin()`: lock check, then the iterator `next(impl.begin, m_idx)`,
embedded as the index. -/
def vbegin {T : Type} (w : World T) (h : Option Nat) (vid : Nat) : Except String Nat :=
  match w.lock h with
  | none => Except.error danglingMsg
  | some s => Except.ok ((lookupView s vid).getD 0)

/-- `View::end()`: lock check, then the queue's end iterator, embedded as the
queue length. -/
def vend {T : Type} (w : World T) (h : Option Nat) (_vid : Nat) : Except String Nat :=
  match w.lock h with
  | none => Except.error danglingMsg
  | some s => Except.ok s.impl.length

/-- `View::~View()`: if the lock succeeds, `unregisterView`; otherwise
nothing happens. -/
def vdestroyView {T : Type} (w : World T) (h : Option Nat) (vid : Nat) : World T :=
  match h with
  | none => w
  | some qid =>
    ⟨w.queues.map (fun r => if r.1 == qid then (r.1, unregisterView r.2 vid) else r)⟩

lemma lock_destroy {T : Type} (w : World T) (qid : Nat) :
    (World.destroy w qid).lock (some qid) = none := by
  have hfind : (w.queues.filter (fun q => !(q.1 == qid))).find? (fun q => q.1 == qid)
      = none := by
    refine List.find?_eq_none.mpr ?_
    intro x hx
    have hne := (List.mem_filter.mp hx).2
    simp only [Bool.not_eq_eq_eq_not, Bool.not_true, beq_eq_false_iff_ne] at hne
    simpa using hne
  simp [World.lock, World.destroy, hfind]

/-- **C7.** Once a View's queue has been destroyed, its `lock` fails, and
every View operation — `pop`, `waitFor`, `size`, `clear`, iteration
(`begin`/`end`) — raises the dangling-view runtime error, surfaced to the
caller as an explicit error value (`Except.error`, the embedding of the
thrown `std::runtime_error`), never silently swallowed. -/
theorem C7_dangling_view_error {T : Type} (w : World T) (qid vid : Nat) :
    (World.destroy w qid).lock (some qid) = none ∧
    vpop (World.destroy w qid) (some qid) vid = Except.error danglingMsg ∧
    vwaitFor (World.destroy w qid) (some qid) vid = Except.error danglingMsg ∧
    vsize (World.destroy w qid) (some qid) vid = Except.error danglingMsg ∧
    vclear (World.destroy w qid) (some qid) vid = Except.error danglingMsg ∧
    vbegin (World.destroy w qid) (some qid) vid = Except.error danglingMsg ∧
    vend (World.destroy w qid) (some qid) vid = Except.error danglingMsg := by
  have hl := lock_destroy w qid
  refine ⟨hl, ?_, ?_, ?_, ?_, ?_, ?_⟩ <;>
    simp [vpop, vwaitFor, vsize, vclear, vbegin, vend, hl]

/-- **C10.** A default-constructed View (empty `weak_ptr`, handle `none`)
fails every operation with the same dangling-view error as a View whose
queue was destroyed; destroying such a View is a no-op, and unregistering a
view id that is not in a queue's registered set leaves the queue unchanged
(the `m_views.find == end` early return), which is what makes destroying or
assigning over such a View safe. -/
theorem C10_default_view_ops {T : Type} (w : World T) (s : MQState T) (vid : Nat)
    (h : s.views.any (fun p => p.1 == vid) = false) :
    w.lock none = none ∧
    vpop w none vid = Except.error danglingMsg ∧
    vwaitFor w none vid = Except.error danglingMsg ∧
    vsize w none vid = Except.error danglingMsg ∧
    vclear w none vid = Except.error danglingMsg ∧
    vbegin w none vid = Except.error danglingMsg ∧
    vend w none vid = Except.error danglingMsg ∧
    vdestroyView w none vid = w ∧
    unregisterView s vid = s := by
  refine ⟨rfl, rfl, rfl, rfl, rfl, rfl, rfl, rfl, ?_⟩
  rw [unregisterView, if_neg]
  simp [h]

/-- A one-queue world for the C10 witness. -/
def w0 : World Nat := ⟨[(0, s1ex)]⟩

/-- Witness for C10: the world `w0`, the queue state `s1ex`, and view id 7,
which is not registered in `s1ex`. -/
theorem C10_default_view_ops_witness :
    (s1ex.views.any (fun p => p.1 == 7) = false) ∧
    (w0.lock none = none ∧
     vpop w0 none 7 = Except.error danglingMsg ∧
     vwaitFor w0 none 7 = Except.error danglingMsg ∧
     vsize w0 none 7 = Except.error danglingMsg ∧
     vclear w0 none 7 = Except.error danglingMsg ∧
     vbegin w0 none 7 = Except.error danglingMsg ∧
     vend w0 none 7 = Except.error danglingMsg ∧
     vdestroyView w0 none 7 = w0 ∧
     unregisterView s1ex 7 = s1ex) :=
  ⟨by decide, C10_default_view_ops w0 s1ex 7 (by decide)⟩

end MQ

/-! ## The dataflow facets (Producer.h, Consumer.h, ComponentFactory.h) -/

namespace DF

open MQ

/-- `Producer<Out>::pushOutput(T&&)`, the generic overload: forwards to the
owned queue's `push`. Overload resolution selects it whenever the argument's
type is exactly the element type — in particular for
`Producer<std::optional<U>>` fed a `std::optional<U>`, where the template is
an exact match and beats the non-template optional overload. -/
def pushOutput {T : Type} (s : MQState T) (x : T) : MQState T := push s x

/-- `Producer<Out>::pushOutput(std::optional<Out>)`: pushes only when the
optional holds a value, otherwise does nothing. Selected when the behavior
returns `std::optional<Out>` for a producer whose element type is `Out`. -/
def pushOutputOpt {T : Type} (s : MQState T) (x : Option T) : MQState T :=
  match x with
  | some v => push s v
  | none => s

/-- `ComponentAdaptor::tick` for a producer-only component whose behavior
returned `std::optional<Out>` (element type `Out`): route through the
optional overload. -/
def producerTickOpt {T : Type} (s : MQState T) (result : Option T) : MQState T :=
  pushOutputOpt s result

/-- `ComponentAdaptor::tick` for a producer-only component whose behavior
returns the element type itself (including `Out = std::optional<U>`): route
through the generic overload. -/
def producerTickPlain {T : Type} (s : MQState T) (result : T) : MQState T :=
  pushOutput s result

/-- `Consumer<In>::pullInput` plus the adaptor's conditional invoke: when the
input view's `size()` is positive, pop and hand the element to the behavior;
otherwise the behavior is not invoked this tick. The first component is the
argument the behavior was invoked with, if any. -/
def consumerTick {T : Type} (s : MQState T) (vid : Nat) : Option T × MQState T :=
  if 0 < viewSize s vid then
    match pop s vid with
    | some (x, s2) => (some x, s2)
    | none => (none, s)
  else (none, s)

/-- Output queue of `Producer<std::optional<int>>` with one registered view
(id 0), after the behavior returned an absent optional: the generic overload
pushes the absent value as a real element. -/
def c3q : MQState (Option Nat) := producerTickPlain (view emptyMQ 0) none

/-- A queue of optional elements with one registered view, for the C3
witness. -/
def c3base : MQState (Option Nat) := view emptyMQ 0

/-- **C3.** A single-output `Producer<T>` whose behavior returns an absent
`std::optional<T>` suppresses the push entirely — the queue state is
unchanged, so no element is appended. By contrast, when the element type is
itself `std::optional<U>`, pushing an absent optional goes through the
generic overload and appends the absence as a real element, and a downstream
consumer of optional type is invoked with "no value" rather than skipped. -/
theorem C3_optional_suppression_vs_delivery {T U : Type} (s : MQState T)
    (s2 : MQState (Option U)) (h2 : s2.views ≠ []) :
    producerTickOpt s none = s ∧
    (producerTickPlain s2 none).impl = s2.impl ++ [none] ∧
    c3q.impl = [none] ∧
    (consumerTick c3q 0).1 = some none := by
  refine ⟨rfl, ?_, by decide, by decide⟩
  exact impl_push_nonempty s2 none h2

/-- Witness for C3 at `T = Nat`, `U = Nat`, with the one-view optional queue
`c3base`. -/
theorem C3_optional_suppression_vs_delivery_witness :
    c3base.views ≠ [] ∧
    (producerTickOpt (s1ex : MQState Nat) none = s1ex ∧
     (producerTickPlain c3base none).impl = c3base.impl ++ [none] ∧
     c3q.impl = [none] ∧
     (consumerTick c3q 0).1 = some none) :=
  ⟨by decide, C3_optional_suppression_vs_delivery s1ex c3base (by decide)⟩

/-! ### Fixed-arity consumer (`Consumer<Ins...>`) -/

/-- One input pipe: the queue it views and the view's id in that queue. The
fixed-arity consumer holds one independent pipe per input. -/
def allInputsReady {T : Type} (qs : List (MQState T × Nat)) : Bool :=
  qs.all (fun q => decide (0 < viewSize q.1 q.2))

/-- `View::pop()` through a pipe known to be ready (the `getD` default is
never reached on ready pipes). -/
def popFirst {T : Type} [Inhabited T] (q : MQState T × Nat) : T × MQState T :=
  (pop q.1 q.2).getD (default, q.1)

/-- `Consumer<Ins...>::pullInput`: `allInputsReady()` checks every view's
`size() > 0`; only if all are ready is one element popped from each (in
declaration order) and returned as the ordered group, otherwise nothing is
returned and no view is touched. -/
def fixedPullInput {T : Type} [Inhabited T] (qs : List (MQState T × Nat)) :
    Option (List T) × List (MQState T × Nat) :=
  if allInputsReady qs then
    (some (qs.map (fun q => (popFirst q).1)), qs.map (fun q => ((popFirst q).2, q.2)))
  else (none, qs)

lemma popFirst_spec {T : Type} [Inhabited T] (q : MQState T × Nat)
    (hW : Wf q.1) (i : Nat) (hfind : lookupView q.1 q.2 = some i)
    (hpos : 0 < viewSize q.1 q.2) :
    (viewRemaining q.1 q.2).head? = some (popFirst q).1 ∧
    viewRemaining (popFirst q).2 q.2 = (viewRemaining q.1 q.2).tail := by
  have hi : i < q.1.impl.length := (viewSize_pos_iff q.1 q.2 i hfind).mp hpos
  obtain ⟨x, s2, hpop, hhead, htail⟩ := pop_remaining q.1 hW q.2 i hfind hi
  rw [popFirst, hpop]
  exact ⟨hhead, htail⟩

/-- **C9.** For the fixed-N consumer: if any input view is empty, `pullInput`
returns nothing and every input pipe is left exactly as it was — nothing is
popped and no offset advances. Only when all N views are simultaneously
non-empty does it pop exactly one element from each and return them as the
ordered group: the i-th returned element is the head of the i-th view's
covered range, and afterwards each view covers exactly the tail of what it
covered before. -/
theorem C9_fixed_pull_all_or_nothing {T : Type} [Inhabited T]
    (qs : List (MQState T × Nat))
    (hgood : ∀ q ∈ qs, Wf q.1 ∧ (lookupView q.1 q.2).isSome = true) :
    ((∃ q ∈ qs, viewSize q.1 q.2 = 0) → fixedPullInput qs = (none, qs)) ∧
    ((∀ q ∈ qs, 0 < viewSize q.1 q.2) →
      ∃ out qs2, fixedPullInput qs = (some out, qs2) ∧
        List.Forall₂ (fun (q : MQState T × Nat) (x : T) =>
          (viewRemaining q.1 q.2).head? = some x) qs out ∧
        List.Forall₂ (fun (q q2 : MQState T × Nat) =>
          q2.2 = q.2 ∧ viewRemaining q2.1 q2.2 = (viewRemaining q.1 q.2).tail) qs qs2) := by
  constructor
  · rintro ⟨q, hq, hq0⟩
    have hfalse : allInputsReady qs = false := by
      cases hb : allInputsReady qs
      · rfl
      · have hmem := List.all_eq_true.mp hb q hq
        rw [hq0] at hmem
        exact absurd (of_decide_eq_true hmem) (by omega)
    rw [fixedPullInput, if_neg (by simp [hfalse])]
  · intro hpos
    have htrue : allInputsReady qs = true :=
      List.all_eq_true.mpr (fun q hq => decide_eq_true (hpos q hq))
    rw [fixedPullInput, if_pos (by simp [htrue])]
    refine ⟨_, _, rfl, ?_, ?_⟩
    · rw [List.forall₂_map_right_iff, List.forall₂_same]
      intro q hq
      obtain ⟨i, hfind⟩ := Option.isSome_iff_exists.mp (hgood q hq).2
      exact (popFirst_spec q (hgood q hq).1 i hfind (hpos q hq)).1
    · rw [List.forall₂_map_right_iff, List.forall₂_same]
      intro q hq
      obtain ⟨i, hfind⟩ := Option.isSome_iff_exists.mp (hgood q hq).2
      exact ⟨rfl, (popFirst_spec q (hgood q hq).1 i hfind (hpos q hq)).2⟩

/-- Two one-element, one-view queues for the C9 witness. -/
def c9q1 : MQState Nat := push (view emptyMQ 0) 3

def c9q2 : MQState Nat := push (view emptyMQ 0) 4

lemma c9qs_good : ∀ q ∈ [((c9q1 : MQState Nat), 0), (c9q2, 0)],
    Wf q.1 ∧ (lookupView q.1 q.2).isSome = true := by
  intro q hq
  rcases List.mem_cons.mp hq with rfl | hq2
  · exact ⟨⟨by decide, by decide, by decide, by decide, by decide⟩, by decide⟩
  rcases List.mem_cons.mp hq2 with rfl | hq3
  · exact ⟨⟨by decide, by decide, by decide, by decide, by decide⟩, by decide⟩
  · cases hq3

/-- Witness for C9: both pipes of `[(c9q1, 0), (c9q2, 0)]` are ready, so one
element is popped from each. -/
theorem C9_fixed_pull_all_or_nothing_witness :
    (∀ q ∈ [((c9q1 : MQState Nat), 0), (c9q2, 0)],
        Wf q.1 ∧ (lookupView q.1 q.2).isSome = true) ∧
    (∀ q ∈ [((c9q1 : MQState Nat), 0), (c9q2, 0)], 0 < viewSize q.1 q.2) ∧
    (∃ out qs2, fixedPullInput [((c9q1 : MQState Nat), 0), (c9q2, 0)] = (some out, qs2) ∧
      List.Forall₂ (fun (q : MQState Nat × Nat) (x : Nat) =>
        (viewRemaining q.1 q.2).head? = some x) [(c9q1, 0), (c9q2, 0)] out ∧
      List.Forall₂ (fun (q q2 : MQState Nat × Nat) =>
        q2.2 = q.2 ∧ viewRemaining q2.1 q2.2 = (viewRemaining q.1 q.2).tail)
        [(c9q1, 0), (c9q2, 0)] qs2) :=
  ⟨c9qs_good, by decide,
   (C9_fixed_pull_all_or_nothing [(c9q1, 0), (c9q2, 0)] c9qs_good).2 (by decide)⟩

/-! ### Dynamic-bus consumer (`Consumer<In[]>`) -/

/-- State of `Consumer<In[]>`: the input pipes `m_inputPipes` (each a queue
state plus the view's id in it — each pipe is an independent upstream queue)
and the carried-over accumulator `m_inputs` of values popped in earlier,
incomplete rounds. -/
structure BusConsumer (T : Type) where
  inputPipes : List (MQState T × Nat)
  inputs : List T
deriving DecidableEq

/-- The loop body of `Consumer<In[]>::pullInput` over the not-yet-satisfied
pipes (`i` from `m_inputs.size()` to `m_inputPipes.size()`): pop from each
pipe whose `size() > 0` into the accumulator, in order, stopping at the first
pipe that is not ready. The Bool records whether the loop ran to completion. -/
def busPullLoop {T : Type} [Inhabited T] :
    List (MQState T × Nat) → List T → Bool × List (MQState T × Nat) × List T
  | [], acc => (true, [], acc)
  | q :: rest, acc =>
    if 0 < viewSize q.1 q.2 then
      let r := popFirst q
      let out := busPullLoop rest (acc ++ [r.1])
      (out.1, (r.2, q.2) :: out.2.1, out.2.2)
    else (false, q :: rest, acc)

/-- `Consumer<In[]>::pullInput`: run the loop over the pipes at indices
`≥ m_inputs.size()`; on completion return `std::exchange(m_inputs, {})`,
otherwise return nothing and keep the partially filled accumulator. -/
def busPullInput {T : Type} [Inhabited T] (c : BusConsumer T) :
    Option (List T) × BusConsumer T :=
  let r := busPullLoop (c.inputPipes.drop c.inputs.length) c.inputs
  let pipes2 := c.inputPipes.take c.inputs.length ++ r.2.1
  if r.1 then (some r.2.2, ⟨pipes2, []⟩) else (none, ⟨pipes2, r.2.2⟩)

lemma busPullLoop_all_ready {T : Type} [Inhabited T] (pending : List (MQState T × Nat)) :
    ∀ acc : List T,
      (∀ q ∈ pending, Wf q.1 ∧ (lookupView q.1 q.2).isSome = true) →
      (∀ q ∈ pending, 0 < viewSize q.1 q.2) →
      ∃ pending2 outs, busPullLoop pending acc = (true, pending2, acc ++ outs) ∧
        List.Forall₂ (fun (q : MQState T × Nat) (x : T) =>
          (viewRemaining q.1 q.2).head? = some x) pending outs ∧
        List.Forall₂ (fun (q q2 : MQState T × Nat) =>
          q2.2 = q.2 ∧ viewRemaining q2.1 q2.2 = (viewRemaining q.1 q.2).tail)
          pending pending2 := by
  induction pending with
  | nil =>
    intro acc _ _
    exact ⟨[], [], by simp [busPullLoop], List.Forall₂.nil, List.Forall₂.nil⟩
  | cons q rest ih =>
    intro acc hgood hready
    have hq := hgood q (List.mem_cons_self q rest)
    obtain ⟨i, hfind⟩ := Option.isSome_iff_exists.mp hq.2
    have hqpos := hready q (List.mem_cons_self q rest)
    have hspec := popFirst_spec q hq.1 i hfind hqpos
    obtain ⟨p2, outs, hloop, hf1, hf2⟩ :=
      ih (acc ++ [(popFirst q).1])
        (fun r hr => hgood r (List.mem_cons_of_mem q hr))
        (fun r hr => hready r (List.mem_cons_of_mem q hr))
    refine ⟨((popFirst q).2, q.2) :: p2, (popFirst q).1 :: outs, ?_, ?_, ?_⟩
    · simp only [busPullLoop, if_pos hqpos]
      rw [hloop]
      simp [List.append_assoc]
    · exact List.Forall₂.cons hspec.1 hf1
    · exact List.Forall₂.cons ⟨rfl, hspec.2⟩ hf2

lemma busPullLoop_blocked {T : Type} [Inhabited T] (ready : List (MQState T × Nat))
    (q0 : MQState T × Nat) (rest : List (MQState T × Nat)) :
    ∀ acc : List T,
      (∀ q ∈ ready, Wf q.1 ∧ (lookupView q.1 q.2).isSome = true) →
      (∀ q ∈ ready, 0 < viewSize q.1 q.2) →
      viewSize q0.1 q0.2 = 0 →
      ∃ ready2 outs,
        busPullLoop (ready ++ q0 :: rest) acc = (false, ready2 ++ q0 :: rest, acc ++ outs) ∧
        List.Forall₂ (fun (q : MQState T × Nat) (x : T) =>
          (viewRemaining q.1 q.2).head? = some x) ready outs ∧
        List.Forall₂ (fun (q q2 : MQState T × Nat) =>
          q2.2 = q.2 ∧ viewRemaining q2.1 q2.2 = (viewRemaining q.1 q.2).tail)
          ready ready2 := by
  induction ready with
  | nil =>
    intro acc _ _ h0
    refine ⟨[], [], ?_, List.Forall₂.nil, List.Forall₂.nil⟩
    simp only [List.nil_append, busPullLoop]
    rw [if_neg (by omega)]
    simp
  | cons q t ih =>
    intro acc hgood hready h0
    have hq := hgood q (List.mem_cons_self q t)
    obtain ⟨i, hfind⟩ := Option.isSome_iff_exists.mp hq.2
    have hqpos := hready q (List.mem_cons_self q t)
    have hspec := popFirst_spec q hq.1 i hfind hqpos
    obtain ⟨r2, outs, hloop, hf1, hf2⟩ :=
      ih (acc ++ [(popFirst q).1])
        (fun r hr => hgood r (List.mem_cons_of_mem q hr))
        (fun r hr => hready r (List.mem_cons_of_mem q hr)) h0
    refine ⟨((popFirst q).2, q.2) :: r2, (popFirst q).1 :: outs, ?_, ?_, ?_⟩
    · simp only [List.cons_append, busPullLoop, if_pos hqpos, List.append_eq]
      rw [hloop]
      simp [List.append_assoc]
    · exact List.Forall₂.cons hspec.1 hf1
    · exact List.Forall₂.cons ⟨rfl, hspec.2⟩ hf2

/-- Push a value into pipe `k` of a bus consumer (the upstream producer's
push arriving on that queue). -/
def pushPipe {T : Type} (c : BusConsumer T) (k : Nat) (x : T) : BusConsumer T :=
  ⟨c.inputPipes.set k (push (c.inputPipes.getD k (emptyMQ, 0)).1 x,
                       (c.inputPipes.getD k (emptyMQ, 0)).2),
   c.inputs⟩

/-- Queue of bus-consumer input pipe 1 with its view (id 0). -/
def c5q1 : MQState Nat := view emptyMQ 0

/-- Queue of bus-consumer input pipe 2 with its view (id 0). -/
def c5q2 : MQState Nat := view emptyMQ 0

/-- The two-pipe bus consumer after `123` was pushed to pipe 1 only. -/
def c5c1 : BusConsumer Nat := ⟨[(push c5q1 123, 0), (c5q2, 0)], []⟩

/-- The consumer after the first (incomplete) pull: pipe 1's element sits in
the accumulator. -/
def c5c2 : BusConsumer Nat := (busPullInput c5c1).2

/-- The consumer after `456` was then pushed to pipe 2. -/
def c5c3 : BusConsumer Nat := pushPipe c5c2 1 456

/-- **C5.** For the dynamic-bus consumer, each `pullInput` walks the
not-yet-satisfied pipes (indices `≥ m_inputs.size()`) in order, popping one
element from each ready pipe into the carried-over accumulator and stopping
at the first pipe that is not ready; pipes already popped in a prior
incomplete round (the `take`-prefix) are never consumed again for that round.
The pull succeeds — returning and resetting the accumulator — exactly when
every pipe has contributed one element (the returned group has one element
per pipe). Concretely, with two pipes: pushing `123` to pipe 1 only does not
trigger invocation (the pull returns nothing, holding `123`); after `456`
arrives on pipe 2 the pull succeeds once with `[123, 456]`, and the next
pull returns nothing again. -/
theorem C5_bus_pull_accumulator {T : Type} [Inhabited T] (c : BusConsumer T)
    (hgood : ∀ q ∈ c.inputPipes.drop c.inputs.length,
        Wf q.1 ∧ (lookupView q.1 q.2).isSome = true)
    (hlen : c.inputs.length ≤ c.inputPipes.length) :
    ((∀ q ∈ c.inputPipes.drop c.inputs.length, 0 < viewSize q.1 q.2) →
      ∃ pending2 outs,
        busPullInput c = (some (c.inputs ++ outs),
          ⟨c.inputPipes.take c.inputs.length ++ pending2, []⟩) ∧
        (c.inputs ++ outs).length = c.inputPipes.length ∧
        List.Forall₂ (fun (q : MQState T × Nat) (x : T) =>
          (viewRemaining q.1 q.2).head? = some x)
          (c.inputPipes.drop c.inputs.length) outs ∧
        List.Forall₂ (fun (q q2 : MQState T × Nat) =>
          q2.2 = q.2 ∧ viewRemaining q2.1 q2.2 = (viewRemaining q.1 q.2).tail)
          (c.inputPipes.drop c.inputs.length) pending2) ∧
    (∀ ready q0 rest, c.inputPipes.drop c.inputs.length = ready ++ q0 :: rest →
      (∀ q ∈ ready, 0 < viewSize q.1 q.2) → viewSize q0.1 q0.2 = 0 →
      ∃ ready2 outs,
        busPullInput c = (none,
          ⟨c.inputPipes.take c.inputs.length ++ (ready2 ++ q0 :: rest),
           c.inputs ++ outs⟩) ∧
        List.Forall₂ (fun (q : MQState T × Nat) (x : T) =>
          (viewRemaining q.1 q.2).head? = some x) ready outs ∧
        List.Forall₂ (fun (q q2 : MQState T × Nat) =>
          q2.2 = q.2 ∧ viewRemaining q2.1 q2.2 = (viewRemaining q.1 q.2).tail)
          ready ready2) ∧
    ((busPullInput c5c1).1 = none ∧
     c5c2.inputs = [123] ∧
     (busPullInput c5c3).1 = some [123, 456] ∧
     (busPullInput c5c3).2.inputs = [] ∧
     (busPullInput (busPullInput c5c3).2).1 = none) := by
  refine ⟨?_, ?_, by decide, by decide, by decide, by decide, by decide⟩
  · intro hready
    obtain ⟨pending2, outs, hloop, hf1, hf2⟩ :=
      busPullLoop_all_ready (c.inputPipes.drop c.inputs.length) c.inputs hgood hready
    refine ⟨pending2, outs, ?_, ?_, hf1, hf2⟩
    · simp only [busPullInput]
      rw [hloop]
      simp
    · have houts : outs.length = (c.inputPipes.drop c.inputs.length).length :=
        hf1.length_eq.symm
      rw [List.length_drop] at houts
      simp only [List.length_append]
      omega
  · intro ready q0 rest hdec hready h0
    have hgood2 : ∀ q ∈ ready, Wf q.1 ∧ (lookupView q.1 q.2).isSome = true := by
      intro q hq
      exact hgood q (by rw [hdec]; exact List.mem_append_left _ hq)
    obtain ⟨ready2, outs, hloop, hf1, hf2⟩ :=
      busPullLoop_blocked ready q0 rest c.inputs hgood2 hready h0
    refine ⟨ready2, outs, ?_, hf1, hf2⟩
    simp only [busPullInput]
    rw [hdec, hloop]
    simp

/-- The all-ready two-pipe consumer for the C5 witness: `123` on pipe 1 and
`456` on pipe 2, empty accumulator. -/
def c5w : BusConsumer Nat := ⟨[(push c5q1 123, 0), (push c5q2 456, 0)], []⟩

lemma c5w_good : ∀ q ∈ c5w.inputPipes.drop c5w.inputs.length,
    Wf q.1 ∧ (lookupView q.1 q.2).isSome = true := by
  intro q hq
  rcases List.mem_cons.mp hq with rfl | hq2
  · exact ⟨⟨by decide, by decide, by decide, by decide, by decide⟩, by decide⟩
  rcases List.mem_cons.mp hq2 with rfl | hq3
  · exact ⟨⟨by decide, by decide, by decide, by decide, by decide⟩, by decide⟩
  · cases hq3

/-- Witness for C5: the success branch at the all-ready consumer `c5w`. -/
theorem C5_bus_pull_accumulator_witness :
    (∀ q ∈ c5w.inputPipes.drop c5w.inputs.length,
        Wf q.1 ∧ (lookupView q.1 q.2).isSome = true) ∧
    c5w.inputs.length ≤ c5w.inputPipes.length ∧
    (∀ q ∈ c5w.inputPipes.drop c5w.inputs.length, 0 < viewSize q.1 q.2) ∧
    (∃ pending2 outs,
      busPullInput c5w = (some (c5w.inputs ++ outs),
        ⟨c5w.inputPipes.take c5w.inputs.length ++ pending2, []⟩) ∧
      (c5w.inputs ++ outs).length = c5w.inputPipes.length ∧
      List.Forall₂ (fun (q : MQState Nat × Nat) (x : Nat) =>
        (viewRemaining q.1 q.2).head? = some x)
        (c5w.inputPipes.drop c5w.inputs.length) outs ∧
      List.Forall₂ (fun (q q2 : MQState Nat × Nat) =>
        q2.2 = q.2 ∧ viewRemaining q2.1 q2.2 = (viewRemaining q.1 q.2).tail)
        (c5w.inputPipes.drop c5w.inputs.length) pending2) :=
  ⟨c5w_good, by decide, by decide,
   (C5_bus_pull_accumulator c5w c5w_good (by decide)).1 (by decide)⟩

/-! ### Dynamic-bus producer (`Producer<Out[]>`) -/

/-- `getOutputPipeSource(idx)`: grow `m_outputPipes` by appending fresh
queues while `size <= idx`. -/
def getOutputPipeSource {T : Type} (ps : List (MQState T)) (idx : Nat) : List (MQState T) :=
  ps ++ List.replicate (idx + 1 - ps.length) emptyMQ

/-- `getOutputPipe(idx)`: grow if needed, then create a fresh view on queue
`idx` — embedded as registering view id `vid` on that queue. -/
def getOutputPipe {T : Type} (ps : List (MQState T)) (idx vid : Nat) : List (MQState T) :=
  (getOutputPipeSource ps idx).set idx
    (view ((getOutputPipeSource ps idx).getD idx emptyMQ) vid)

/-- `pushOutput(idx, value)` for a present value: grow if needed, push to
queue `idx`. -/
def pushAt {T : Type} (ps : List (MQState T)) (idx : Nat) (x : T) : List (MQState T) :=
  (getOutputPipeSource ps idx).set idx
    (push ((getOutputPipeSource ps idx).getD idx emptyMQ) x)

/-- The loop of `Producer<Out[]>::pushOutput(std::vector<T>)`: route element
`i` to pipe `i`. -/
def busPushFrom {T : Type} : List T → List (MQState T) → Nat → List (MQState T)
  | [], ps, _ => ps
  | x :: rest, ps, i => busPushFrom rest (pushAt ps i x) (i + 1)

def busPushOutput {T : Type} (ps : List (MQState T)) (values : List T) : List (MQState T) :=
  busPushFrom values ps 0

/-- The same loop when the vector's element type is `std::optional<Out>`:
the per-element overload returns early on an absent value, neither pushing
nor growing that pipe. -/
def busPushFromOpt {T : Type} : List (Option T) → List (MQState T) → Nat → List (MQState T)
  | [], ps, _ => ps
  | none :: rest, ps, i => busPushFromOpt rest ps (i + 1)
  | some x :: rest, ps, i => busPushFromOpt rest (pushAt ps i x) (i + 1)

def busPushOutputOpt {T : Type} (ps : List (MQState T)) (values : List (Option T)) :
    List (MQState T) :=
  busPushFromOpt values ps 0

/-- `n` ticks of a producer-only component always returning the same group. -/
def iterPush {T : Type} (values : List T) : Nat → List (MQState T) → List (MQState T)
  | 0, ps => ps
  | n + 1, ps => iterPush values n (busPushOutput ps values)

lemma length_gps {T : Type} (ps : List (MQState T)) (idx : Nat) :
    (getOutputPipeSource ps idx).length = max ps.length (idx + 1) := by
  rw [getOutputPipeSource, List.length_append, List.length_replicate]
  omega

lemma getD_gps {T : Type} (ps : List (MQState T)) (idx j : Nat) :
    (getOutputPipeSource ps idx).getD j emptyMQ = ps.getD j emptyMQ := by
  rcases Nat.lt_or_ge j ps.length with h | h
  · exact List.getD_append _ _ _ _ h
  · rw [getOutputPipeSource, List.getD_append_right _ _ _ _ h]
    have h1 : (List.replicate (idx + 1 - ps.length) (emptyMQ : MQState T)).getD
        (j - ps.length) emptyMQ = emptyMQ := by
      rw [List.getD_eq_getElem?_getD, List.getElem?_replicate]
      split <;> rfl
    rw [h1, List.getD_eq_default _ _ h]

lemma getD_pushAt_self {T : Type} (ps : List (MQState T)) (i : Nat) (x : T) :
    (pushAt ps i x).getD i emptyMQ = push (ps.getD i emptyMQ) x := by
  have hlen : i < (getOutputPipeSource ps i).length := by
    rw [length_gps]
    omega
  rw [pushAt, List.getD_eq_getElem?_getD, List.getElem?_set_self hlen,
    Option.getD_some, getD_gps]

lemma getD_pushAt_ne {T : Type} (ps : List (MQState T)) (i j : Nat) (x : T) (h : i ≠ j) :
    (pushAt ps i x).getD j emptyMQ = ps.getD j emptyMQ := by
  rw [pushAt, List.getD_eq_getElem?_getD, List.getElem?_set_ne h,
    ← List.getD_eq_getElem?_getD]
  exact getD_gps ps i j

lemma busPushFrom_getD {T : Type} [Inhabited T] (values : List T) :
    ∀ (ps : List (MQState T)) (i j : Nat),
      (j < i → (busPushFrom values ps i).getD j emptyMQ = ps.getD j emptyMQ) ∧
      (∀ k, j = i + k → k < values.length →
        (busPushFrom values ps i).getD j emptyMQ
          = push (ps.getD j emptyMQ) (values.getD k default)) ∧
      (i + values.length ≤ j →
        (busPushFrom values ps i).getD j emptyMQ = ps.getD j emptyMQ) := by
  induction values with
  | nil =>
    intro ps i j
    exact ⟨fun _ => rfl, fun k _ hlt => absurd hlt (by simp), fun _ => rfl⟩
  | cons x rest ih =>
    intro ps i j
    have hdef : busPushFrom (x :: rest) ps i = busPushFrom rest (pushAt ps i x) (i + 1) :=
      rfl
    refine ⟨?_, ?_, ?_⟩
    · intro hj
      rw [hdef, (ih (pushAt ps i x) (i + 1) j).1 (by omega),
        getD_pushAt_ne ps i j x (by omega)]
    · intro k hk hlt
      rcases k with _ | k2
      · have h1 := (ih (pushAt ps i x) (i + 1) j).1 (by omega)
        rw [hdef, h1, hk]
        simpa using getD_pushAt_self ps i x
      · have h2 := (ih (pushAt ps i x) (i + 1) j).2.1 k2 (by omega)
          (by simp only [List.length_cons] at hlt; omega)
        rw [hdef, h2, getD_pushAt_ne ps i j x (by omega), List.getD_cons_succ]
    · intro hj
      simp only [List.length_cons] at hj
      have h3 := (ih (pushAt ps i x) (i + 1) j).2.2 (by omega)
      rw [hdef, h3, getD_pushAt_ne ps i j x (by omega)]

lemma busPushFromOpt_getD {T : Type} (values : List (Option T)) :
    ∀ (ps : List (MQState T)) (i j : Nat),
      (j < i → (busPushFromOpt values ps i).getD j emptyMQ = ps.getD j emptyMQ) ∧
      (∀ k, j = i + k → k < values.length → values.getD k none = none →
        (busPushFromOpt values ps i).getD j emptyMQ = ps.getD j emptyMQ) ∧
      (∀ k x, j = i + k → k < values.length → values.getD k none = some x →
        (busPushFromOpt values ps i).getD j emptyMQ
          = push (ps.getD j emptyMQ) x) ∧
      (i + values.length ≤ j →
        (busPushFromOpt values ps i).getD j emptyMQ = ps.getD j emptyMQ) := by
  induction values with
  | nil =>
    intro ps i j
    exact ⟨fun _ => rfl, fun k _ hlt => absurd hlt (by simp),
      fun k x _ hlt => absurd hlt (by simp), fun _ => rfl⟩
  | cons v rest ih =>
    intro ps i j
    rcases v with _ | x0
    · have hdef : busPushFromOpt (none :: rest) ps i = busPushFromOpt rest ps (i + 1) := rfl
      refine ⟨?_, ?_, ?_, ?_⟩
      · intro hj
        rw [hdef, (ih ps (i + 1) j).1 (by omega)]
      · intro k hk hlt hnone
        rcases k with _ | k2
        · rw [hdef, (ih ps (i + 1) j).1 (by omega)]
        · exact hdef ▸ (ih ps (i + 1) j).2.1 k2 (by omega)
            (by simp only [List.length_cons] at hlt; omega)
            (by rwa [List.getD_cons_succ] at hnone)
      · intro k x hk hlt hsome
        rcases k with _ | k2
        · rw [List.getD_cons_zero] at hsome
          cases hsome
        · exact hdef ▸ (ih ps (i + 1) j).2.2.1 k2 x (by omega)
            (by simp only [List.length_cons] at hlt; omega)
            (by rwa [List.getD_cons_succ] at hsome)
      · intro hj
        rw [hdef, (ih ps (i + 1) j).2.2.2 (by simp only [List.length_cons] at hj; omega)]
    · have hdef : busPushFromOpt (some x0 :: rest) ps i
          = busPushFromOpt rest (pushAt ps i x0) (i + 1) := rfl
      refine ⟨?_, ?_, ?_, ?_⟩
      · intro hj
        rw [hdef, (ih (pushAt ps i x0) (i + 1) j).1 (by omega),
          getD_pushAt_ne ps i j x0 (by omega)]
      · intro k hk hlt hnone
        rcases k with _ | k2
        · rw [List.getD_cons_zero] at hnone
          cases hnone
        · rw [hdef, (ih (pushAt ps i x0) (i + 1) j).2.1 k2 (by omega)
            (by simp only [List.length_cons] at hlt; omega)
            (by rwa [List.getD_cons_succ] at hnone),
            getD_pushAt_ne ps i j x0 (by omega)]
      · intro k x hk hlt hsome
        rcases k with _ | k2
        · rw [List.getD_cons_zero] at hsome
          cases hsome
          have h1 := (ih (pushAt ps i x0) (i + 1) j).1 (by omega)
          rw [hdef, h1, hk]
          simpa using getD_pushAt_self ps i x0
        · rw [hdef, (ih (pushAt ps i x0) (i + 1) j).2.2.1 k2 x (by omega)
            (by simp only [List.length_cons] at hlt; omega)
            (by rwa [List.getD_cons_succ] at hsome),
            getD_pushAt_ne ps i j x0 (by omega)]
      · intro hj
        simp only [List.length_cons] at hj
        rw [hdef, (ih (pushAt ps i x0) (i + 1) j).2.2.2 (by omega),
          getD_pushAt_ne ps i j x0 (by omega)]

lemma iterPush_getD_high {T : Type} [Inhabited T] (values : List T) (j : Nat)
    (hj : values.length ≤ j) :
    ∀ (n : Nat) (ps : List (MQState T)),
      (iterPush values n ps).getD j emptyMQ = ps.getD j emptyMQ := by
  intro n
  induction n with
  | zero => intro ps; rfl
  | succ n ihn =>
    intro ps
    rw [show iterPush values (n + 1) ps = iterPush values n (busPushOutput ps values)
        from rfl,
      ihn (busPushOutput ps values)]
    exact (busPushFrom_getD values ps 0 j).2.2 (by omega)

/-- Three bus-producer pipes, each pre-created via `getOutputPipe` with a
fresh view (id 0): the concrete setup of the `[1, 2]` example. -/
def c8ps : List (MQState Nat) :=
  getOutputPipe (getOutputPipe (getOutputPipe ([] : List (MQState Nat)) 0 0) 1 0) 2 0

/-- **C8.** `getOutputPipe(i)` lazily grows the owned queue list to `i + 1`
queues when `i` is past the end (leaving it unchanged when `i` is in range
and never disturbing existing queues), and returns a fresh view on queue `i`
that covers nothing yet — so an output index can be obtained before any data
exists. Pushing a group routes element `i` to queue `i`, with per-element
optional suppression in the optional-element instantiation, and pipes at
indices past the group's length receive nothing that round. Concretely, a
producer returning `[1, 2]` with three pre-created pipes yields `1` on pipe
0 and `2` on pipe 1, while pipe 2 stays empty after any number of ticks. -/
theorem C8_dynamic_bus_producer {T : Type} [Inhabited T] (ps : List (MQState T))
    (idx vid : Nat) (values : List T) (valuesOpt : List (Option T)) (k : Nat) (x : T)
    (hfresh : ∀ p ∈ ((getOutputPipeSource ps idx).getD idx emptyMQ).views, p.1 ≠ vid) :
    (ps.length ≤ idx → (getOutputPipeSource ps idx).length = idx + 1) ∧
    (idx < ps.length → getOutputPipeSource ps idx = ps) ∧
    (getOutputPipeSource ps idx).take ps.length = ps ∧
    viewRemaining ((getOutputPipe ps idx vid).getD idx emptyMQ) vid = [] ∧
    (k < values.length →
      (busPushOutput ps values).getD k emptyMQ
        = push (ps.getD k emptyMQ) (values.getD k default)) ∧
    (values.length ≤ k →
      (busPushOutput ps values).getD k emptyMQ = ps.getD k emptyMQ) ∧
    (k < valuesOpt.length → valuesOpt.getD k none = none →
      (busPushOutputOpt ps valuesOpt).getD k emptyMQ = ps.getD k emptyMQ) ∧
    (k < valuesOpt.length → valuesOpt.getD k none = some x →
      (busPushOutputOpt ps valuesOpt).getD k emptyMQ
        = push (ps.getD k emptyMQ) x) ∧
    (values.length ≤ k → ∀ n,
      (iterPush values n ps).getD k emptyMQ = ps.getD k emptyMQ) ∧
    (viewRemaining ((busPushOutput c8ps [1, 2]).getD 0 emptyMQ) 0 = [1] ∧
     viewRemaining ((busPushOutput c8ps [1, 2]).getD 1 emptyMQ) 0 = [2] ∧
     viewRemaining ((busPushOutput c8ps [1, 2]).getD 2 emptyMQ) 0 = [] ∧
     ∀ n, viewRemaining ((iterPush [1, 2] n c8ps).getD 2 emptyMQ) 0 = []) := by
  refine ⟨?_, ?_, ?_, ?_, ?_, ?_, ?_, ?_, ?_, by decide, by decide, by decide, ?_⟩
  · intro h
    rw [length_gps]
    omega
  · intro h
    rw [getOutputPipeSource, show idx + 1 - ps.length = 0 from by omega]
    exact List.append_nil ps
  · rw [getOutputPipeSource]
    exact List.take_left ps _
  · have hlen : idx < (getOutputPipeSource ps idx).length := by
      rw [length_gps]
      omega
    have hgd : (getOutputPipe ps idx vid).getD idx emptyMQ
        = view ((getOutputPipeSource ps idx).getD idx emptyMQ) vid := by
      rw [getOutputPipe, List.getD_eq_getElem?_getD, List.getElem?_set_self hlen,
        Option.getD_some]
    rw [hgd]
    exact (viewRemaining_view_fresh _ vid hfresh).2
  · intro h
    exact (busPushFrom_getD values ps 0 k).2.1 k (by omega) h
  · intro h
    exact (busPushFrom_getD values ps 0 k).2.2 (by omega)
  · intro h hnone
    exact (busPushFromOpt_getD valuesOpt ps 0 k).2.1 k (by omega) h hnone
  · intro h hsome
    exact (busPushFromOpt_getD valuesOpt ps 0 k).2.2.1 k x (by omega) h hsome
  · intro h n
    exact iterPush_getD_high values k h n ps
  · intro n
    rw [iterPush_getD_high [1, 2] 2 (by decide) n c8ps]
    decide

/-- Witness for C8 at the concrete three-pipe setup: `ps = c8ps`, `idx = 3`
(growth), pushed group `[1, 2]`, optional group `[some 1, none]`, pipe
index `k = 1`. -/
theorem C8_dynamic_bus_producer_witness :
    (∀ p ∈ ((getOutputPipeSource c8ps 3).getD 3 emptyMQ).views, p.1 ≠ 4) ∧
    ((c8ps.length ≤ 3 → (getOutputPipeSource c8ps 3).length = 3 + 1) ∧
     (3 < c8ps.length → getOutputPipeSource c8ps 3 = c8ps) ∧
     (getOutputPipeSource c8ps 3).take c8ps.length = c8ps ∧
     viewRemaining ((getOutputPipe c8ps 3 4).getD 3 emptyMQ) 4 = [] ∧
     (1 < ([1, 2] : List Nat).length →
       (busPushOutput c8ps [1, 2]).getD 1 emptyMQ
         = push (c8ps.getD 1 emptyMQ) (([1, 2] : List Nat).getD 1 default)) ∧
     (([1, 2] : List Nat).length ≤ 1 →
       (busPushOutput c8ps [1, 2]).getD 1 emptyMQ = c8ps.getD 1 emptyMQ) ∧
     (1 < ([some 1, none] : List (Option Nat)).length →
       ([some 1, none] : List (Option Nat)).getD 1 none = none →
       (busPushOutputOpt c8ps [some 1, none]).getD 1 emptyMQ = c8ps.getD 1 emptyMQ) ∧
     (1 < ([some 1, none] : List (Option Nat)).length →
       ([some 1, none] : List (Option Nat)).getD 1 none = some 9 →
       (busPushOutputOpt c8ps [some 1, none]).getD 1 emptyMQ
         = push (c8ps.getD 1 emptyMQ) 9) ∧
     (([1, 2] : List Nat).length ≤ 1 → ∀ n,
       (iterPush [1, 2] n c8ps).getD 1 emptyMQ = c8ps.getD 1 emptyMQ) ∧
     (viewRemaining ((busPushOutput c8ps [1, 2]).getD 0 emptyMQ) 0 = [1] ∧
      viewRemaining ((busPushOutput c8ps [1, 2]).getD 1 emptyMQ) 0 = [2] ∧
      viewRemaining ((busPushOutput c8ps [1, 2]).getD 2 emptyMQ) 0 = [] ∧
      ∀ n, viewRemaining ((iterPush [1, 2] n c8ps).getD 2 emptyMQ) 0 = [])) :=
  ⟨by decide, C8_dynamic_bus_producer c8ps 3 4 [1, 2] [some 1, none] 1 9 (by decide)⟩

end DF
